import Mathlib

/-!
Verification development for the restaurant daily-menu pipeline
(scraper + TTL cache + orchestrator).

The definitions below are a shallow embedding of the TypeScript sources:
`ScraperService` (src/services/scraper.ts), `CacheService`
(src/services/cache.ts) and `MenuService` (src/services/menuService.ts),
together with the data model of src/types/menu.ts.  Pure helpers become
Lean functions; the network, the headless browser, the LLM call and the
SQLite table become explicit parameters (oracles keyed by their inputs)
and an explicit list-of-rows state.  Every function is executable.

Strings are modelled as Lean `String` (a list of unicode scalars); the
JavaScript string operations used by the code (`toLowerCase`, `includes`,
`split`, `trim`, the one price regex) are re-implemented below over
`String.data`.  `toLowerCase` is modelled for ASCII plus the Czech
letters that the classifier keywords use.
-/

namespace Menu

/-! ## Character and string helpers (JS string operations) -/

/-- ASCII decimal digit test; models the regex class `\d`. -/
def isDigitChar (c : Char) : Bool :=
  '0' ≤ c && c ≤ '9'

/-- Models the regex class `\s` (JS whitespace): the common whitespace
characters used by the pages this code scrapes (space, tab, LF, CR,
vertical tab, form feed, NBSP). -/
def isWsChar (c : Char) : Bool :=
  c = ' ' || c = '\t' || c = '\n' || c = Char.ofNat 13 || c = Char.ofNat 11 ||
  c = Char.ofNat 12 || c = Char.ofNat 160

/-- Models `String.prototype.toLowerCase` on one character, for ASCII plus
the Czech diacritic letters appearing in the classifier keywords. -/
def lowerChar (c : Char) : Char :=
  if 'A' ≤ c && c ≤ 'Z' then Char.ofNat (c.toNat + 32)
  else if c = 'Á' then 'á'
  else if c = 'Č' then 'č'
  else if c = 'Ď' then 'ď'
  else if c = 'É' then 'é'
  else if c = 'Ě' then 'ě'
  else if c = 'Í' then 'í'
  else if c = 'Ň' then 'ň'
  else if c = 'Ó' then 'ó'
  else if c = 'Ř' then 'ř'
  else if c = 'Š' then 'š'
  else if c = 'Ť' then 'ť'
  else if c = 'Ú' then 'ú'
  else if c = 'Ů' then 'ů'
  else if c = 'Ý' then 'ý'
  else if c = 'Ž' then 'ž'
  else c

/-- Models `s.toLowerCase()`. -/
def lowerStr (s : String) : String :=
  ⟨s.data.map lowerChar⟩

/-- Does `pre` occur at the head of `l`? -/
def prefixOfList : List Char → List Char → Bool
  | [], _ => true
  | _ :: _, [] => false
  | a :: l, b :: r => a = b && prefixOfList l r

/-- Does `needle` occur as a contiguous run inside `hay`? -/
def infixOfList (needle : List Char) : List Char → Bool
  | [] => prefixOfList needle []
  | c :: r => prefixOfList needle (c :: r) || infixOfList needle r

/-- Models `s.includes(sub)`. -/
def strIncludes (s sub : String) : Bool :=
  infixOfList sub.data s.data

/-- Models `s.trim()` being empty (also covers the `!s` falsy check for `""`). -/
def trimIsEmpty (s : String) : Bool :=
  s.data.all isWsChar

/-! ## ScraperService -/

/-- Failure classification of a fetch attempt (`fetchPageContent` maps axios
outcomes to the timeout / HTTP-status / network-error / other messages; the
Puppeteer fetch likewise rejects with an error).  We keep the classification,
not the message text. -/
inductive FetchError
  | timeout
  | httpError (status : Nat)
  | networkError
  | other (msg : String)
deriving DecidableEq, Repr

deriving instance DecidableEq for Except

/-- Observable actions of one `summarizeMenu` run, in order: cache reads and
writes with the key they use, and network fetches with the exact URL handed
to the static (axios) or rendered (Puppeteer) fetcher. -/
inductive Event
  | cacheRead (url date : String)
  | cacheWrite (url date : String)
  | fetchStatic (target : String)
  | fetchRendered (target : String)
  | llmCall (date : String)
deriving DecidableEq, Repr

/-- `ScraperService.removeHashFromUrl`: both branches of the source --- the
`new URL` branch (set `hash` to `''` and reserialize) on an already-normalized
absolute URL, and the `url.split('#')[0]` fallback --- return the prefix of
the string before the first `'#'`. -/
def removeHashFromUrl (url : String) : String :=
  ⟨url.data.takeWhile (fun c => c ≠ '#')⟩

/-- Does the suffix start (case-insensitively, JS `/i` canonicalization) with
this lowercase pattern?  Used for the regex alternatives `kč|kc`. -/
def startsWithCI : List Char → List Char → Bool
  | [], _ => true
  | _ :: _, [] => false
  | p :: ps, c :: cs => lowerChar c = p && startsWithCI ps cs

/-- After the digits and whitespace of `/\d+\s*(kč|kc|,-)/i`: does the suffix
begin with one of the three alternatives? -/
def priceSuffix (cs : List Char) : Bool :=
  startsWithCI ['k', 'č'] cs || startsWithCI ['k', 'c'] cs ||
  prefixOfList [',', '-'] cs

/-- Scan for a match of `/\d+\s*(kč|kc|,-)/i` starting at each position:
at least one digit, then any further digits, optional whitespace, then one of
the currency/price alternatives.  (The regex's greedy `\d+` and `\s*` never
need to backtrack here because no alternative starts with a digit or a
whitespace character.) -/
def priceScan : List Char → Bool
  | [] => false
  | c :: rest =>
    (isDigitChar c &&
      priceSuffix ((rest.dropWhile isDigitChar).dropWhile isWsChar)) ||
    priceScan rest

/-- Models `text.match(/\d+\s*(kč|kc|,-)/i) !== null`. -/
def priceRegexTest (text : String) : Bool :=
  priceScan text.data

/-- The menu-content classifier of `scrapeMenuPageWithImages` (scraper.ts,
`hasMenuContent`): a fixed keyword set over the lowercased text, the price
regex, or a nonempty image list. -/
def hasMenuContent (text : String) (images : List String) : Bool :=
  strIncludes (lowerStr text) "polévka" ||
  strIncludes (lowerStr text) "soup" ||
  strIncludes (lowerStr text) "cena" ||
  strIncludes (lowerStr text) "kč" ||
  priceRegexTest text ||
  images.length > 0

/-- The `mentionsMenuButNoItems` value of `scrapeMenuPageWithImages`:
menu-word mention while `hasMenuContent` is false. -/
def mentionsMenuButNoItems (text : String) (images : List String) : Bool :=
  (strIncludes (lowerStr text) "denní menu" ||
   strIncludes (lowerStr text) "polední nabídka" ||
   strIncludes (lowerStr text) "menu") &&
  !(hasMenuContent text images)

/-- The collaborators of `ScraperService`, keyed by their inputs:
`extractTextContent` and `findMenuImages` are the Cheerio-based extraction
functions (pure in markup resp. markup and base URL); `staticResp` is the
outcome of `fetchPageContent`'s axios GET for a given clean URL; `rendered1`
and `rendered2` are the outcomes of the first and of a possible second
`fetchPageContentWithPuppeteer` call for a given URL (the two launches are
independent browser runs and may differ). -/
structure ScrapeEnv where
  extractTextContent : String → String
  findMenuImages : String → String → List String
  staticResp : String → Except FetchError String
  rendered1 : String → Except FetchError String
  rendered2 : String → Except FetchError String

/-- `ScraperService.scrapeMenuPageWithImages`, with its event trace.

Control flow of the source: inside the `try`, fetch statically (with the
hash-stripped URL), extract, and if `hasMenuContent` holds return the static
extraction; otherwise (`mentionsMenuButNoItems || !hasMenuContent`) fetch with
Puppeteer (raw URL) and return its extraction; a final return of the static
extraction follows for the remaining case.  The `catch` receives any error
thrown inside the `try` --- a static fetch failure or a failed Puppeteer call
--- and runs Puppeteer (again); if that also fails, the originally caught
error is rethrown (wrapped). -/
def scrapeMenuPageWithImages (env : ScrapeEnv) (url : String) :
    Except FetchError (String × List String) × List Event :=
  let cleanUrl := removeHashFromUrl url
  match env.staticResp cleanUrl with
  | .error e =>
    -- static fetch threw: the catch block tries Puppeteer once
    (match env.rendered1 url with
     | .ok h =>
       (.ok (env.extractTextContent h, env.findMenuImages h url),
        [Event.fetchStatic cleanUrl, Event.fetchRendered url])
     | .error _ =>
       (.error e, [Event.fetchStatic cleanUrl, Event.fetchRendered url]))
  | .ok html =>
    let text := env.extractTextContent html
    let images := env.findMenuImages html url
    if hasMenuContent text images then
      (.ok (text, images), [Event.fetchStatic cleanUrl])
    else if mentionsMenuButNoItems text images || !hasMenuContent text images then
      match env.rendered1 url with
      | .ok h2 =>
        (.ok (env.extractTextContent h2, env.findMenuImages h2 url),
         [Event.fetchStatic cleanUrl, Event.fetchRendered url])
      | .error e1 =>
        -- the Puppeteer error propagates to the catch, which retries Puppeteer
        match env.rendered2 url with
        | .ok h3 =>
          (.ok (env.extractTextContent h3, env.findMenuImages h3 url),
           [Event.fetchStatic cleanUrl, Event.fetchRendered url,
            Event.fetchRendered url])
        | .error _ =>
          (.error e1,
           [Event.fetchStatic cleanUrl, Event.fetchRendered url,
            Event.fetchRendered url])
    else
      (.ok (text, images), [Event.fetchStatic cleanUrl])

/-- The simplification the spec asks about (claim C9): the same function with
the `mentionsMenuButNoItems` value removed and the escalation decided by
`!hasMenuContent` alone, with no trailing return branch. -/
def scrapeSimplified (env : ScrapeEnv) (url : String) :
    Except FetchError (String × List String) × List Event :=
  let cleanUrl := removeHashFromUrl url
  match env.staticResp cleanUrl with
  | .error e =>
    (match env.rendered1 url with
     | .ok h =>
       (.ok (env.extractTextContent h, env.findMenuImages h url),
        [Event.fetchStatic cleanUrl, Event.fetchRendered url])
     | .error _ =>
       (.error e, [Event.fetchStatic cleanUrl, Event.fetchRendered url]))
  | .ok html =>
    let text := env.extractTextContent html
    let images := env.findMenuImages html url
    if hasMenuContent text images then
      (.ok (text, images), [Event.fetchStatic cleanUrl])
    else
      match env.rendered1 url with
      | .ok h2 =>
        (.ok (env.extractTextContent h2, env.findMenuImages h2 url),
         [Event.fetchStatic cleanUrl, Event.fetchRendered url])
      | .error e1 =>
        match env.rendered2 url with
        | .ok h3 =>
          (.ok (env.extractTextContent h3, env.findMenuImages h3 url),
           [Event.fetchStatic cleanUrl, Event.fetchRendered url,
            Event.fetchRendered url])
        | .error _ =>
          (.error e1,
           [Event.fetchStatic cleanUrl, Event.fetchRendered url,
            Event.fetchRendered url])

/-- The static-fetch targets recorded in a trace, in order. -/
def staticTargets (evs : List Event) : List String :=
  evs.filterMap fun e =>
    match e with
    | .fetchStatic t => some t
    | _ => none

/-- The rendered-fetch targets recorded in a trace, in order. -/
def renderedTargets (evs : List Event) : List String :=
  evs.filterMap fun e =>
    match e with
    | .fetchRendered t => some t
    | _ => none

/-- The cache keys read in a trace, in order. -/
def cacheReadKeys (evs : List Event) : List (String × String) :=
  evs.filterMap fun e =>
    match e with
    | .cacheRead u d => some (u, d)
    | _ => none

/-- The cache keys written in a trace, in order. -/
def cacheWriteKeys (evs : List Event) : List (String × String) :=
  evs.filterMap fun e =>
    match e with
    | .cacheWrite u d => some (u, d)
    | _ => none

/-- The dates handed to the LLM extraction calls of a trace. -/
def llmCallDates (evs : List Event) : List String :=
  evs.filterMap fun e =>
    match e with
    | .llmCall d => some d
    | _ => none

/-! ## Calendar arithmetic (the `Date` operations the code performs)

The code uses JavaScript `Date` in four places: `Date.now()` (an epoch
instant, a parameter of our model), `new Date(d + 'T00:00:00')` (parse a
`YYYY-MM-DD` string as local time), `setDate(getDate() + 1)` (advance one
civil day), and `toISOString()` (format in UTC).  We model instants as
epoch milliseconds (`Int`), civil dates by the standard days-from-civil
bijection, and the local time zone as a fixed offset `tzOffsetMs` east of
UTC (daylight-saving shifts are outside the model). -/

/-- Days from the epoch 1970-01-01 of the civil date (y, m, d)
(the standard Gregorian-calendar formula). -/
def daysFromCivil (y m d : Int) : Int :=
  let y' := y - (if m ≤ 2 then 1 else 0)
  let era := y'.fdiv 400
  let yoe := y' - era * 400
  let mp := m + (if m > 2 then -3 else 9)
  let doy := (153 * mp + 2).fdiv 5 + d - 1
  let doe := yoe * 365 + yoe.fdiv 4 - yoe.fdiv 100 + doy
  era * 146097 + doe - 719468

/-- Civil date (y, m, d) of a days-from-epoch count (inverse of
`daysFromCivil`). -/
def civilFromDays (z0 : Int) : Int × Int × Int :=
  let z := z0 + 719468
  let era := z.fdiv 146097
  let doe := z - era * 146097
  let yoe := (doe - doe.fdiv 1460 + doe.fdiv 36524 - doe.fdiv 146096).fdiv 365
  let y := yoe + era * 400
  let doy := doe - (365 * yoe + yoe.fdiv 4 - yoe.fdiv 100)
  let mp := (5 * doy + 2).fdiv 153
  let d := doy - (153 * mp + 2).fdiv 5 + 1
  let m := mp + (if mp < 10 then 3 else -9)
  (y + (if m ≤ 2 then 1 else 0), m, d)

/-- One day and the day length in milliseconds. -/
def dayMs : Int := 86400000

/-- Days in a Gregorian month. -/
def daysInMonth (y m : Int) : Int :=
  if m = 2 then
    (if y % 4 = 0 && (y % 100 ≠ 0 || y % 400 = 0) then 29 else 28)
  else if m = 4 || m = 6 || m = 9 || m = 11 then 30
  else 31

/-- Two-digit decimal value of two ASCII digit characters. -/
def twoDigits (a b : Char) : Option Int :=
  if isDigitChar a && isDigitChar b then
    some ((a.toNat - 48) * 10 + (b.toNat - 48))
  else none

/-- Parse a `YYYY-MM-DD` string into a valid civil date, as the `Date`
constructor's ISO date-time parser validates it (month 1-12, day within the
month); an out-of-range or malformed string yields an Invalid Date (`none`). -/
def parseYmd (s : String) : Option (Int × Int × Int) :=
  match s.data with
  | [y1, y2, y3, y4, '-', m1, m2, '-', d1, d2] =>
    match twoDigits y1 y2, twoDigits y3 y4, twoDigits m1 m2, twoDigits d1 d2 with
    | some yh, some yl, some m, some d =>
      let y := yh * 100 + yl
      if 1 ≤ m && m ≤ 12 && 1 ≤ d && d ≤ daysInMonth y m then
        some (y, m, d)
      else none
    | _, _, _, _ => none
  | _ => none

/-- Left-pad a nonnegative integer's decimal form to two digits. -/
def pad2 (n : Int) : String :=
  if n < 10 then "0" ++ toString n else toString n

/-- Left-pad a nonnegative integer's decimal form to four digits
(the years this service handles are four-digit). -/
def pad4 (n : Int) : String :=
  if n < 10 then "000" ++ toString n
  else if n < 100 then "00" ++ toString n
  else if n < 1000 then "0" ++ toString n
  else toString n

/-- Format a civil date as `YYYY-MM-DD`. -/
def formatYmd : Int × Int × Int → String
  | (y, m, d) => pad4 y ++ "-" ++ pad2 m ++ "-" ++ pad2 d

namespace MenuService

/-- `MenuService.getCurrentDate`: `new Date().toISOString().split('T')[0]` ---
the **UTC** calendar date of the current instant (`toISOString` always
formats in UTC). -/
def getCurrentDate (nowMs : Int) : String :=
  formatYmd (civilFromDays (nowMs.fdiv dayMs))

/-- Modelled from the spec: "`date` defaults to the current local date when
absent" (§6) --- the calendar date of the current instant in the process's
local time zone (offset `tzOffsetMs` east of UTC).  Stated only for
comparison with `getCurrentDate`. -/
def currentLocalDate (nowMs tzOffsetMs : Int) : String :=
  formatYmd (civilFromDays ((nowMs + tzOffsetMs).fdiv dayMs))

/-- The Czech weekday names of `MenuService.getDayOfWeek`, indexed by
JavaScript `getDay()` (0 = Sunday). -/
def dayNames : List String :=
  ["neděle", "pondělí", "úterý", "středa", "čtvrtek", "pátek", "sobota"]

/-- `MenuService.getDayOfWeek`: parse the date at local midnight and take
`getDay()`.  Local parsing and local `getDay` cancel, so the result is the
weekday of the civil date itself (epoch day 0 was a Thursday, `getDay` 4).
An unparseable date gives an Invalid Date and an out-of-range index
(`undefined` in JS); we return `""` there. -/
def getDayOfWeek (dateString : String) : String :=
  match parseYmd dateString with
  | some (y, m, d) => dayNames.getD ((daysFromCivil y m d + 4).emod 7).toNat ""
  | none => ""

end MenuService

/-! ## Data model (src/types/menu.ts) -/

/-- `MenuItem` of src/types/menu.ts.  `price: number` holds the integral
crown amounts the menus carry; we model it as `Int` (the JSON number
round-trip below is about these values, not about non-finite doubles). -/
structure MenuItem where
  category : String
  name : String
  price : Int
  allergens : Option (List String) := none
  weight : Option String := none
  description : Option String := none
deriving DecidableEq, Repr

/-- `MenuSummary` of src/types/menu.ts. -/
structure MenuSummary where
  restaurant_name : String
  date : String
  day_of_week : String
  menu_items : List MenuItem
  daily_menu : Bool
  source_url : String
deriving DecidableEq, Repr

/-! ## JSON serialization (`JSON.stringify` / `JSON.parse`)

The cache stores `JSON.stringify(data)` in its `data` column and applies
`JSON.parse` on read.  We model the two platform builtins over our data
model: the encoder produces exactly the compact JSON text `JSON.stringify`
emits for a `MenuSummary` object (fields in declaration order, optional
fields omitted when `undefined`, strings escaped as `JSON.stringify`
escapes them); the parser is a recursive-descent reader of that object
layout which fails (`none`, the `catch (parseError)` path) on any string it
cannot read --- in particular on every string that is not valid JSON.
`JSON.parse` itself also accepts JSON texts of other shapes, which the
unchecked `as MenuSummary` cast would pass through; no row the service
writes has such a shape. -/

/-- The `'\x7b'` and `'\x7d'` braces of the JSON object syntax. -/
def obrace : Char := Char.ofNat 123

/-- Closing JSON object brace. -/
def cbrace : Char := Char.ofNat 125

/-- Lower-case hex digit of a value below 16. -/
def hexDigitChar (n : Nat) : Char :=
  if n < 10 then Char.ofNat (48 + n) else Char.ofNat (87 + n)

/-- Value of a hex digit character. -/
def hexCharVal (c : Char) : Option Nat :=
  if '0' ≤ c && c ≤ '9' then some (c.toNat - 48)
  else if 'a' ≤ c && c ≤ 'f' then some (c.toNat - 87)
  else if 'A' ≤ c && c ≤ 'F' then some (c.toNat - 55)
  else none

/-- How `JSON.stringify` writes one string character: `"` and `\` get a
backslash, the named control escapes are used for backspace, tab, LF, FF,
CR, the remaining control characters become `\u00XX`, everything else is
written verbatim. -/
def escChar (c : Char) : List Char :=
  if c = '"' then ['\\', '"']
  else if c = '\\' then ['\\', '\\']
  else if c = Char.ofNat 8 then ['\\', 'b']
  else if c = '\t' then ['\\', 't']
  else if c = '\n' then ['\\', 'n']
  else if c = Char.ofNat 12 then ['\\', 'f']
  else if c = Char.ofNat 13 then ['\\', 'r']
  else if c.toNat < 32 then
    ['\\', 'u', '0', '0', hexDigitChar (c.toNat / 16), hexDigitChar (c.toNat % 16)]
  else [c]

/-- JSON string literal of a string value. -/
def encStr (s : String) : List Char :=
  '"' :: (s.data.map escChar).flatten ++ ['"']

/-- Decimal digits of a natural number, most significant first.  The fuel
argument makes the division recursion structural; `natDigits` supplies
enough fuel for any value. -/
def natDigitsAux : Nat → Nat → List Char
  | 0, _ => []
  | fuel + 1, n =>
    if n < 10 then [Char.ofNat (48 + n)]
    else natDigitsAux fuel (n / 10) ++ [Char.ofNat (48 + n % 10)]

/-- Decimal digits of a natural number. -/
def natDigits (n : Nat) : List Char :=
  natDigitsAux (n + 1) n

/-- JSON number of an integer, as `JSON.stringify` writes it. -/
def encInt (n : Int) : List Char :=
  if n < 0 then '-' :: natDigits (-n).toNat else natDigits n.toNat

/-- JSON boolean. -/
def encBool (b : Bool) : List Char :=
  if b then ['t', 'r', 'u', 'e'] else ['f', 'a', 'l', 's', 'e']

/-- JSON array body after the opening bracket: elements with comma
separators, ending at the closing bracket. -/
def encArrayTail (encElem : α → List Char) : List α → List Char
  | [] => [']']
  | x :: xs => ',' :: encElem x ++ encArrayTail encElem xs

/-- JSON array of encoded elements. -/
def encArray (encElem : α → List Char) : List α → List Char
  | [] => ['[', ']']
  | x :: xs => '[' :: encElem x ++ encArrayTail encElem xs

/-- The characters of a key token `,"key":`. -/
def keyTok (key : String) : List Char :=
  ',' :: '"' :: key.data ++ ['"', ':']

/-- The characters of the first key token of an object (after the brace). -/
def firstKeyTok (key : String) : List Char :=
  obrace :: '"' :: key.data ++ ['"', ':']

/-- `JSON.stringify` of one `MenuItem` object: required fields in
declaration order, each optional field present exactly when defined. -/
def encMenuItem (it : MenuItem) : List Char :=
  firstKeyTok "category" ++ encStr it.category ++
  keyTok "name" ++ encStr it.name ++
  keyTok "price" ++ encInt it.price ++
  (match it.allergens with
   | none => []
   | some a => keyTok "allergens" ++ encArray encStr a) ++
  (match it.weight with
   | none => []
   | some w => keyTok "weight" ++ encStr w) ++
  (match it.description with
   | none => []
   | some d => keyTok "description" ++ encStr d) ++
  [cbrace]

/-- `JSON.stringify` of a `MenuSummary` object. -/
def encMenuSummary (m : MenuSummary) : List Char :=
  firstKeyTok "restaurant_name" ++ encStr m.restaurant_name ++
  keyTok "date" ++ encStr m.date ++
  keyTok "day_of_week" ++ encStr m.day_of_week ++
  keyTok "menu_items" ++ encArray encMenuItem m.menu_items ++
  keyTok "daily_menu" ++ encBool m.daily_menu ++
  keyTok "source_url" ++ encStr m.source_url ++
  [cbrace]

/-- The serialized payload string the cache's `set` stores. -/
def stringifyMenuSummary (m : MenuSummary) : String :=
  ⟨encMenuSummary m⟩

/-- Consume an expected literal off the front of the input. -/
def expectLit : List Char → List Char → Option (List Char)
  | [], input => some input
  | _ :: _, [] => none
  | a :: l, b :: r => if a = b then expectLit l r else none

/-- Do two character lists disagree at some position covered by both? -/
def litsClash : List Char → List Char → Bool
  | a :: l, b :: r => decide (a ≠ b) || litsClash l r
  | _, _ => false

/-- Read one JSON string escape after the backslash.  `\uXXXX` values that are
not unicode scalars (surrogate halves) are rejected; `JSON.stringify` never
writes them for scalar strings. -/
def parseEsc : List Char → Option (Char × List Char)
  | [] => none
  | e :: r =>
    if e = '"' then some ('"', r)
    else if e = '\\' then some ('\\', r)
    else if e = '/' then some ('/', r)
    else if e = 'b' then some (Char.ofNat 8, r)
    else if e = 'f' then some (Char.ofNat 12, r)
    else if e = 'n' then some ('\n', r)
    else if e = 'r' then some (Char.ofNat 13, r)
    else if e = 't' then some ('\t', r)
    else if e = 'u' then
      match r with
      | h1 :: h2 :: h3 :: h4 :: r' =>
        match hexCharVal h1, hexCharVal h2, hexCharVal h3, hexCharVal h4 with
        | some a, some b, some c, some d =>
          if ((a * 16 + b) * 16 + c) * 16 + d < 55296 ∨
              57343 < ((a * 16 + b) * 16 + c) * 16 + d then
            some (Char.ofNat (((a * 16 + b) * 16 + c) * 16 + d), r')
          else none
        | _, _, _, _ => none
      | _ => none
    else none

/-- Read the body of a JSON string up to the closing quote.  The fuel bounds
the number of produced characters; every call site passes at least the input
length plus one, which can never be exhausted first. -/
def parseStrBody : Nat → List Char → Option (List Char × List Char)
  | 0, _ => none
  | _, [] => none
  | fuel + 1, c :: r =>
    if c = '"' then some ([], r)
    else if c = '\\' then
      match parseEsc r with
      | none => none
      | some (d, r') =>
        match parseStrBody fuel r' with
        | none => none
        | some (cs, r'') => some (d :: cs, r'')
    else
      match parseStrBody fuel r with
      | none => none
      | some (cs, r') => some (c :: cs, r')

/-- Read a JSON string literal. -/
def parseJString (input : List Char) : Option (String × List Char) :=
  match input with
  | '"' :: r =>
    match parseStrBody (r.length + 1) r with
    | some (cs, rest) => some (⟨cs⟩, rest)
    | none => none
  | _ => none

/-- Decimal value of a digit run. -/
def digitsVal (ds : List Char) : Nat :=
  ds.foldl (fun a c => a * 10 + (c.toNat - 48)) 0

/-- Read a nonempty run of decimal digits. -/
def parseNatTok (input : List Char) : Option (Nat × List Char) :=
  let ds := input.takeWhile isDigitChar
  if ds.isEmpty then none
  else some (digitsVal ds, input.dropWhile isDigitChar)

/-- Read a JSON integer (optional minus sign, digit run). -/
def parseIntTok (input : List Char) : Option (Int × List Char) :=
  if input.head? = some '-' then
    match parseNatTok input.tail with
    | some (n, rest) => some (-(n : Int), rest)
    | none => none
  else
    match parseNatTok input with
    | some (n, rest) => some ((n : Int), rest)
    | none => none

/-- Read a JSON boolean literal. -/
def parseBool (input : List Char) : Option (Bool × List Char) :=
  match expectLit ['t', 'r', 'u', 'e'] input with
  | some r => some (true, r)
  | none =>
    match expectLit ['f', 'a', 'l', 's', 'e'] input with
    | some r => some (false, r)
    | none => none

/-- Read the elements of a nonempty JSON array after the opening bracket:
an element, then either the closing bracket or a comma and further elements.
The fuel bounds the element count; call sites pass the input length plus one,
which can never run out first since every element consumes input. -/
def parseArrayTail (pElem : List Char → Option (α × List Char)) :
    Nat → List Char → Option (List α × List Char)
  | 0, _ => none
  | fuel + 1, input =>
    match pElem input with
    | none => none
    | some (x, rest) =>
      if rest.head? = some ']' then some ([x], rest.tail)
      else if rest.head? = some ',' then
        match parseArrayTail pElem fuel rest.tail with
        | none => none
        | some (xs, r') => some (x :: xs, r')
      else none

/-- Read a JSON array. -/
def parseArray (pElem : List Char → Option (α × List Char)) (input : List Char) :
    Option (List α × List Char) :=
  match input with
  | '[' :: r =>
    if r.head? = some ']' then some ([], r.tail)
    else parseArrayTail pElem (r.length + 1) r
  | _ => none

/-- Read an optional object field: if the key token is present, its value
must follow; otherwise the input is left untouched and the field is absent. -/
def tryField (l : List Char) (p : List Char → Option (α × List Char))
    (input : List Char) : Option (Option α × List Char) :=
  match expectLit l input with
  | none => some (none, input)
  | some r =>
    match p r with
    | none => none
    | some (x, r') => some (some x, r')

/-- Read one `MenuItem` object. -/
def parseMenuItem (input : List Char) : Option (MenuItem × List Char) := do
  let r0 ← expectLit (firstKeyTok "category") input
  let (cat, r1) ← parseJString r0
  let r2 ← expectLit (keyTok "name") r1
  let (nm, r3) ← parseJString r2
  let r4 ← expectLit (keyTok "price") r3
  let (pr, r5) ← parseIntTok r4
  let (allg, r6) ← tryField (keyTok "allergens") (parseArray parseJString) r5
  let (wt, r7) ← tryField (keyTok "weight") parseJString r6
  let (ds, r8) ← tryField (keyTok "description") parseJString r7
  let r9 ← expectLit [cbrace] r8
  return (⟨cat, nm, pr, allg, wt, ds⟩, r9)

/-- Read one `MenuSummary` object. -/
def parseMenuSummaryChars (input : List Char) : Option (MenuSummary × List Char) := do
  let r0 ← expectLit (firstKeyTok "restaurant_name") input
  let (rn, r1) ← parseJString r0
  let r2 ← expectLit (keyTok "date") r1
  let (dt, r3) ← parseJString r2
  let r4 ← expectLit (keyTok "day_of_week") r3
  let (dw, r5) ← parseJString r4
  let r6 ← expectLit (keyTok "menu_items") r5
  let (items, r7) ← parseArray parseMenuItem r6
  let r8 ← expectLit (keyTok "daily_menu") r7
  let (dm, r9) ← parseBool r8
  let r10 ← expectLit (keyTok "source_url") r9
  let (su, r11) ← parseJString r10
  let r12 ← expectLit [cbrace] r11
  return (⟨rn, dt, dw, items, dm, su⟩, r12)

/-- `JSON.parse(row.data) as MenuSummary` on a stored payload: the whole
string must be one `MenuSummary`-shaped JSON text; anything else throws in
`JSON.parse` (or is a shape no write of this service produces) and lands in
the `catch (parseError)` path, modelled as `none`. -/
def parseMenuSummaryStr (s : String) : Option MenuSummary :=
  match parseMenuSummaryChars s.data with
  | some (m, []) => some m
  | _ => none

/-! ### Round-trip lemmas for the JSON layer -/

theorem expectLit_append (l X : List Char) : expectLit l (l ++ X) = some X := by
  induction l with
  | nil => rfl
  | cons a l ih => simp [expectLit, ih]

theorem expectLit_clash (l pre X : List Char) (h : litsClash l pre = true) :
    expectLit l (pre ++ X) = none := by
  induction l generalizing pre with
  | nil => simp [litsClash] at h
  | cons a l ih =>
    cases pre with
    | nil => simp [litsClash] at h
    | cons b r =>
      simp only [litsClash, Bool.or_eq_true, decide_eq_true_eq] at h
      by_cases hab : a = b
      · simp only [List.cons_append, expectLit, if_pos hab]
        exact ih r (by tauto)
      · simp [expectLit, hab]

theorem hexCharVal_hexDigitChar (n : Nat) (h : n < 16) :
    hexCharVal (hexDigitChar n) = some n := by
  revert h
  revert n
  decide

theorem escChar_length_pos (c : Char) : 1 ≤ (escChar c).length := by
  unfold escChar
  repeat' split
  all_goals simp

/-- The serialized body of a string is at least as long as the string. -/
theorem escBody_length (cs : List Char) :
    cs.length ≤ ((cs.map escChar).flatten).length := by
  induction cs with
  | nil => simp
  | cons c cs ih =>
    simp only [List.map_cons, List.flatten_cons, List.length_append, List.length_cons]
    have := escChar_length_pos c
    omega

/-- The defining equation of `parseStrBody` on a successor and a cons,
stated for rewriting without unfolding on symbolic arguments. -/
theorem parseStrBody_succ_cons (fuel : Nat) (c : Char) (r : List Char) :
    parseStrBody (fuel + 1) (c :: r) =
      if c = '"' then some ([], r)
      else if c = '\\' then
        match parseEsc r with
        | none => none
        | some (d, r') =>
          match parseStrBody fuel r' with
          | none => none
          | some (cs, r'') => some (d :: cs, r'')
      else
        match parseStrBody fuel r with
        | none => none
        | some (cs, r') => some (c :: cs, r') := rfl

/-- Reading one serialized character off the string body. -/
theorem parseStrBody_step (c : Char) (tail : List Char) (fuel : Nat) :
    parseStrBody (fuel + 1) (escChar c ++ tail) =
      match parseStrBody fuel tail with
      | none => none
      | some (cs, r') => some (c :: cs, r') := by
  by_cases hq : c = '"'
  · subst hq
    rfl
  by_cases hbs : c = '\\'
  · subst hbs
    rfl
  by_cases h8 : c = Char.ofNat 8
  · subst h8
    rfl
  by_cases ht : c = '\t'
  · subst ht
    rfl
  by_cases hn : c = '\n'
  · subst hn
    rfl
  by_cases hf : c = Char.ofNat 12
  · subst hf
    rfl
  by_cases hr : c = Char.ofNat 13
  · subst hr
    rfl
  by_cases h32 : c.toNat < 32
  · have hesc : escChar c =
        ['\\', 'u', '0', '0', hexDigitChar (c.toNat / 16), hexDigitChar (c.toNat % 16)] := by
      simp [escChar, hq, hbs, h8, ht, hn, hf, hr, h32]
    rw [hesc]
    have hdiv : c.toNat / 16 < 16 := by omega
    have hmod : c.toNat % 16 < 16 := by omega
    have hpe : parseEsc
        ('u' :: '0' :: '0' :: hexDigitChar (c.toNat / 16) ::
          hexDigitChar (c.toNat % 16) :: tail) = some (c, tail) := by
      have h0 : hexCharVal '0' = some 0 := rfl
      simp only [parseEsc, h0, hexCharVal_hexDigitChar _ hdiv,
        hexCharVal_hexDigitChar _ hmod]
      rw [show ((0 * 16 + 0) * 16 + c.toNat / 16) * 16 + c.toNat % 16 = c.toNat by
        omega]
      rw [if_pos (Or.inl (by omega)), Char.ofNat_toNat]
      rfl
    simp only [List.cons_append, List.nil_append]
    rw [parseStrBody_succ_cons, if_neg (by decide), if_pos rfl, hpe]
  · have hesc : escChar c = [c] := by
      simp [escChar, hq, hbs, h8, ht, hn, hf, hr, h32]
    rw [hesc]
    simp only [List.cons_append, List.nil_append]
    rw [parseStrBody_succ_cons, if_neg hq, if_neg hbs]

theorem parseStrBody_roundtrip (cs : List Char) :
    ∀ fuel X, cs.length < fuel →
      parseStrBody fuel ((cs.map escChar).flatten ++ '"' :: X) = some (cs, X) := by
  induction cs with
  | nil =>
    intro fuel X h
    match fuel, h with
    | fuel + 1, _ => simp [parseStrBody]
  | cons c cs ih =>
    intro fuel X h
    match fuel, h with
    | fuel + 1, h =>
      simp only [List.map_cons, List.flatten_cons, List.append_assoc]
      rw [parseStrBody_step, ih fuel X (by simp at h; omega)]

theorem strMk_data (s : String) : String.mk s.data = s := by
  cases s
  rfl

theorem parseJString_roundtrip (s : String) (X : List Char) :
    parseJString (encStr s ++ X) = some (s, X) := by
  have hfuel : s.data.length <
      ((s.data.map escChar).flatten ++ '"' :: X).length + 1 := by
    have := escBody_length s.data
    simp only [List.length_append, List.length_cons]
    omega
  simp only [encStr, List.cons_append, parseJString, List.append_assoc,
    List.cons_append, List.nil_append]
  rw [parseStrBody_roundtrip s.data _ X hfuel]

theorem natDigitsAux_digits (fuel : Nat) :
    ∀ n, n < fuel → ∀ c ∈ natDigitsAux fuel n, isDigitChar c = true := by
  induction fuel with
  | zero => omega
  | succ fuel ih =>
    intro n hn c hc
    by_cases h10 : n < 10
    · simp only [natDigitsAux, if_pos h10, List.mem_singleton] at hc
      subst hc
      have : ∀ m, m < 10 → isDigitChar (Char.ofNat (48 + m)) = true := by decide
      exact this n h10
    · simp only [natDigitsAux, if_neg h10, List.mem_append, List.mem_singleton] at hc
      rcases hc with hc | hc
      · exact ih (n / 10) (by omega) c hc
      · subst hc
        have : ∀ m, m < 10 → isDigitChar (Char.ofNat (48 + m)) = true := by decide
        exact this (n % 10) (by omega)

theorem natDigitsAux_ne_nil (fuel n : Nat) (h : n < fuel) :
    natDigitsAux fuel n ≠ [] := by
  match fuel, h with
  | fuel + 1, _ =>
    by_cases h10 : n < 10
    · simp [natDigitsAux, if_pos h10]
    · simp [natDigitsAux, if_neg h10]

theorem digitsVal_append_digit (ds : List Char) (c : Char) :
    digitsVal (ds ++ [c]) = digitsVal ds * 10 + (c.toNat - 48) := by
  simp [digitsVal, List.foldl_append]

theorem natDigitsAux_val (fuel : Nat) :
    ∀ n, n < fuel → digitsVal (natDigitsAux fuel n) = n := by
  induction fuel with
  | zero => omega
  | succ fuel ih =>
    intro n hn
    by_cases h10 : n < 10
    · simp only [natDigitsAux, if_pos h10]
      have : ∀ m, m < 10 → (Char.ofNat (48 + m)).toNat = 48 + m := by decide
      simp [digitsVal, this n h10]
    · simp only [natDigitsAux, if_neg h10, digitsVal_append_digit,
        ih (n / 10) (by omega)]
      have : ∀ m, m < 10 → (Char.ofNat (48 + m)).toNat = 48 + m := by decide
      rw [this (n % 10) (by omega)]
      omega

theorem takeWhile_append_all (p : Char → Bool) (l r : List Char)
    (hl : ∀ c ∈ l, p c = true) (hr : ∀ c, r.head? = some c → p c = false) :
    (l ++ r).takeWhile p = l := by
  induction l with
  | nil =>
    cases r with
    | nil => rfl
    | cons c r' => simp [List.takeWhile_cons, hr c rfl]
  | cons a l ih =>
    have ha : p a = true := hl a (by simp)
    simp [List.takeWhile_cons, ha, ih (fun c hc => hl c (by simp [hc]))]

theorem dropWhile_append_all (p : Char → Bool) (l r : List Char)
    (hl : ∀ c ∈ l, p c = true) (hr : ∀ c, r.head? = some c → p c = false) :
    (l ++ r).dropWhile p = r := by
  induction l with
  | nil =>
    cases r with
    | nil => rfl
    | cons c r' => simp [List.dropWhile_cons, hr c rfl]
  | cons a l ih =>
    have ha : p a = true := hl a (by simp)
    simp [List.dropWhile_cons, ha, ih (fun c hc => hl c (by simp [hc]))]

theorem parseNatTok_roundtrip (n : Nat) (X : List Char)
    (hX : ∀ c, X.head? = some c → isDigitChar c = false) :
    parseNatTok (natDigits n ++ X) = some (n, X) := by
  have hall := natDigitsAux_digits (n + 1) n (by omega)
  have htake := takeWhile_append_all isDigitChar (natDigits n) X hall hX
  have hdrop := dropWhile_append_all isDigitChar (natDigits n) X hall hX
  have hne := natDigitsAux_ne_nil (n + 1) n (by omega)
  simp only [parseNatTok, natDigits] at *
  rw [htake, hdrop]
  simp [List.isEmpty_iff, hne, natDigitsAux_val (n + 1) n (by omega)]

theorem parseIntTok_roundtrip (n : Int) (X : List Char)
    (hX : ∀ c, X.head? = some c → isDigitChar c = false) :
    parseIntTok (encInt n ++ X) = some (n, X) := by
  have hhead : ∀ m : Nat, ((natDigits m ++ X).head? = some '-') = False := by
    intro m
    simp only [eq_iff_iff, iff_false]
    intro hcon
    have hne := natDigitsAux_ne_nil (m + 1) m (by omega)
    have hall := natDigitsAux_digits (m + 1) m (by omega)
    simp only [natDigits] at hcon
    cases hnd : natDigitsAux (m + 1) m with
    | nil => exact hne hnd
    | cons c cs =>
      rw [hnd] at hcon
      simp only [List.cons_append, List.head?_cons, Option.some.injEq] at hcon
      have := hall c (by rw [hnd]; simp)
      rw [hcon] at this
      simp [isDigitChar] at this
  by_cases hneg : n < 0
  · have henc : encInt n = '-' :: natDigits (-n).toNat := by
      simp [encInt, if_pos hneg]
    rw [henc]
    simp only [List.cons_append, parseIntTok, List.head?_cons, List.tail_cons,
      if_pos rfl]
    rw [parseNatTok_roundtrip _ X hX]
    simp
    omega
  · have henc : encInt n = natDigits n.toNat := by
      simp [encInt, if_neg hneg]
    rw [henc]
    simp only [parseIntTok]
    rw [if_neg (by rw [hhead n.toNat]; exact id)]
    rw [parseNatTok_roundtrip _ X hX]
    simp
    omega

theorem parseBool_roundtrip (b : Bool) (X : List Char) :
    parseBool (encBool b ++ X) = some (b, X) := by
  cases b
  · have hcl : litsClash ['t', 'r', 'u', 'e'] (encBool false) = true := by decide
    have h1 := expectLit_clash ['t', 'r', 'u', 'e'] (encBool false) X hcl
    simp only [parseBool, h1]
    rw [show encBool false = ['f', 'a', 'l', 's', 'e'] from rfl,
      expectLit_append]
  · rw [show encBool true = ['t', 'r', 'u', 'e'] from rfl]
    simp only [parseBool, expectLit_append]

theorem encArrayTail_length (encElem : α → List Char) (xs : List α) :
    xs.length ≤ (encArrayTail encElem xs).length := by
  induction xs with
  | nil => simp [encArrayTail]
  | cons y ys ih => simp [encArrayTail]; omega

theorem parseArrayTail_roundtrip (pElem : List Char → Option (α × List Char))
    (encElem : α → List Char)
    (hp : ∀ z r, pElem (encElem z ++ r) = some (z, r)) (xs : List α) :
    ∀ x fuel X, xs.length < fuel →
      parseArrayTail pElem fuel (encElem x ++ (encArrayTail encElem xs ++ X)) =
        some (x :: xs, X) := by
  induction xs with
  | nil =>
    intro x fuel X h
    match fuel, h with
    | fuel + 1, _ =>
      simp [encArrayTail, parseArrayTail, hp]
  | cons y ys ih =>
    intro x fuel X h
    match fuel, h with
    | fuel + 1, h =>
      have hih := ih y fuel X (by simp at h; omega)
      simp [encArrayTail, parseArrayTail, hp, List.append_assoc, hih]

theorem parseArray_roundtrip (pElem : List Char → Option (α × List Char))
    (encElem : α → List Char)
    (hp : ∀ z r, pElem (encElem z ++ r) = some (z, r))
    (hh : ∀ z r, (encElem z ++ r).head? ≠ some ']')
    (l : List α) (X : List Char) :
    parseArray pElem (encArray encElem l ++ X) = some (l, X) := by
  cases l with
  | nil =>
    simp [encArray, parseArray]
  | cons x xs =>
    simp only [encArray, List.cons_append, List.append_assoc, parseArray]
    rw [if_neg (hh x (encArrayTail encElem xs ++ X))]
    have hlen : xs.length <
        (encElem x ++ (encArrayTail encElem xs ++ X)).length + 1 := by
      have := encArrayTail_length encElem xs
      simp only [List.length_append]
      omega
    rw [parseArrayTail_roundtrip pElem encElem hp xs x _ X hlen]

theorem tryField_present (l : List Char) (p : List Char → Option (α × List Char))
    (x : α) (enc X : List Char) (hp : p (enc ++ X) = some (x, X)) :
    tryField l p (l ++ (enc ++ X)) = some (some x, X) := by
  simp only [tryField, expectLit_append, hp]

theorem tryField_absent (l pre X : List Char)
    (p : List Char → Option (α × List Char)) (h : litsClash l pre = true) :
    tryField l p (pre ++ X) = some (none, pre ++ X) := by
  simp only [tryField, expectLit_clash l pre X h]

theorem tryField_at_cbrace (l : List Char)
    (p : List Char → Option (α × List Char)) (h : litsClash l [cbrace] = true)
    (X : List Char) : tryField l p (cbrace :: X) = some (none, cbrace :: X) := by
  have := tryField_absent l [cbrace] X p h
  simpa using this

theorem encStr_head_ne (z : String) (r : List Char) :
    (encStr z ++ r).head? ≠ some ']' := by
  simp [encStr]

theorem parseStrArray_roundtrip (l : List String) (X : List Char) :
    parseArray parseJString (encArray encStr l ++ X) = some (l, X) :=
  parseArray_roundtrip parseJString encStr parseJString_roundtrip
    encStr_head_ne l X

theorem headNotDigit_keyTok (k : String) (Y : List Char) :
    ∀ c, (keyTok k ++ Y).head? = some c → isDigitChar c = false := by
  intro c hc
  simp only [keyTok, List.cons_append, List.head?_cons, Option.some.injEq] at hc
  rw [← hc]
  decide

theorem headNotDigit_cbrace (Y : List Char) :
    ∀ c, (cbrace :: Y).head? = some c → isDigitChar c = false := by
  intro c hc
  simp only [List.head?_cons, Option.some.injEq] at hc
  rw [← hc]
  decide

theorem parseIntTok_keyTok (n : Int) (k : String) (Y : List Char) :
    parseIntTok (encInt n ++ (keyTok k ++ Y)) = some (n, keyTok k ++ Y) :=
  parseIntTok_roundtrip n (keyTok k ++ Y) (headNotDigit_keyTok k Y)

theorem parseIntTok_cbrace (n : Int) (Y : List Char) :
    parseIntTok (encInt n ++ (cbrace :: Y)) = some (n, cbrace :: Y) :=
  parseIntTok_roundtrip n (cbrace :: Y) (headNotDigit_cbrace Y)

theorem expectLit_cbrace (X : List Char) :
    expectLit [cbrace] (cbrace :: X) = some X := by
  simp [expectLit]

set_option maxHeartbeats 2000000 in
theorem parseMenuItem_roundtrip (it : MenuItem) (X : List Char) :
    parseMenuItem (encMenuItem it ++ X) = some (it, X) := by
  obtain ⟨cat, nm, pr, allg, wt, ds⟩ := it
  have ha : ∀ (a : List String) (Y : List Char),
      tryField (keyTok "allergens") (parseArray parseJString)
        (keyTok "allergens" ++ (encArray encStr a ++ Y)) = some (some a, Y) :=
    fun a Y => tryField_present _ _ _ _ _ (parseStrArray_roundtrip a Y)
  have hw : ∀ (w : String) (Y : List Char),
      tryField (keyTok "weight") parseJString
        (keyTok "weight" ++ (encStr w ++ Y)) = some (some w, Y) :=
    fun w Y => tryField_present _ _ _ _ _ (parseJString_roundtrip w Y)
  have hd : ∀ (d : String) (Y : List Char),
      tryField (keyTok "description") parseJString
        (keyTok "description" ++ (encStr d ++ Y)) = some (some d, Y) :=
    fun d Y => tryField_present _ _ _ _ _ (parseJString_roundtrip d Y)
  have haw : ∀ (Y : List Char) (p : List Char → Option (List String × List Char)),
      tryField (keyTok "allergens") p (keyTok "weight" ++ Y) =
        some (none, keyTok "weight" ++ Y) :=
    fun Y p => tryField_absent _ _ _ _ (by decide)
  have had : ∀ (Y : List Char) (p : List Char → Option (List String × List Char)),
      tryField (keyTok "allergens") p (keyTok "description" ++ Y) =
        some (none, keyTok "description" ++ Y) :=
    fun Y p => tryField_absent _ _ _ _ (by decide)
  have hab : ∀ (Y : List Char) (p : List Char → Option (List String × List Char)),
      tryField (keyTok "allergens") p (cbrace :: Y) =
        some (none, cbrace :: Y) :=
    fun Y p => tryField_at_cbrace _ _ (by decide) Y
  have hwd : ∀ (Y : List Char) (p : List Char → Option (String × List Char)),
      tryField (keyTok "weight") p (keyTok "description" ++ Y) =
        some (none, keyTok "description" ++ Y) :=
    fun Y p => tryField_absent _ _ _ _ (by decide)
  have hwb : ∀ (Y : List Char) (p : List Char → Option (String × List Char)),
      tryField (keyTok "weight") p (cbrace :: Y) =
        some (none, cbrace :: Y) :=
    fun Y p => tryField_at_cbrace _ _ (by decide) Y
  have hdb : ∀ (Y : List Char) (p : List Char → Option (String × List Char)),
      tryField (keyTok "description") p (cbrace :: Y) =
        some (none, cbrace :: Y) :=
    fun Y p => tryField_at_cbrace _ _ (by decide) Y
  cases allg <;> cases wt <;> cases ds <;>
    simp [encMenuItem, parseMenuItem, List.append_assoc, expectLit_append,
      parseJString_roundtrip, parseIntTok_keyTok, parseIntTok_cbrace,
      parseBool_roundtrip, expectLit_cbrace, ha, hw, hd, haw, had, hab,
      hwd, hwb, hdb]

theorem encMenuItem_head_ne (z : MenuItem) (r : List Char) :
    (encMenuItem z ++ r).head? ≠ some ']' := by
  simp [encMenuItem, firstKeyTok, obrace]

theorem parseItemArray_roundtrip (l : List MenuItem) (X : List Char) :
    parseArray parseMenuItem (encArray encMenuItem l ++ X) = some (l, X) :=
  parseArray_roundtrip parseMenuItem encMenuItem parseMenuItem_roundtrip
    encMenuItem_head_ne l X

set_option maxHeartbeats 2000000 in
/-- Round-trip of the cache serialization: parsing a stored payload returns
exactly the `MenuSummary` that was written. -/
theorem parse_stringify (m : MenuSummary) :
    parseMenuSummaryStr (stringifyMenuSummary m) = some m := by
  obtain ⟨rn, dt, dw, items, dm, su⟩ := m
  have hchars : ∀ X, parseMenuSummaryChars (encMenuSummary ⟨rn, dt, dw, items, dm, su⟩ ++ X) =
      some (⟨rn, dt, dw, items, dm, su⟩, X) := by
    intro X
    simp [encMenuSummary, parseMenuSummaryChars, List.append_assoc,
      expectLit_append, parseJString_roundtrip, parseItemArray_roundtrip,
      parseBool_roundtrip, expectLit_cbrace]
  have h0 := hchars []
  rw [List.append_nil] at h0
  simp only [parseMenuSummaryStr, stringifyMenuSummary, h0]

/-! ## CacheService (src/services/cache.ts)

The SQLite table `menu_cache` is modelled as a list of rows; the
`UNIQUE(url, date)` constraint together with `INSERT OR REPLACE` makes `set`
a delete-then-insert on the key, and `SELECT ... WHERE url = ? AND date = ?`
a lookup of the (unique) matching row. -/

/-- One row of the `menu_cache` table.  `expires_at` is `Option Int`:
`some` holds the epoch-millisecond expiry; `none` models the `NaN` that
`getExpirationTimestamp` produces for an unparseable date string (a NaN
comparison is always false, so such a row never expires). -/
structure CacheRow where
  url : String
  date : String
  data : String
  created_at : Int
  expires_at : Option Int
deriving DecidableEq, Repr

/-- The outcome the sqlite `db.get` callback receives: an error, no row,
or the matching row. -/
inductive DbRead
  | failure
  | ok (row : Option CacheRow)
deriving DecidableEq, Repr

namespace CacheService

/-- `CacheService.getExpirationTimestamp`: parse the date at local midnight
(`new Date(dateString + 'T00:00:00')` in a zone `tzOffsetMs` east of UTC),
advance one civil day (`setDate(getDate() + 1)`), and take the epoch instant
(`getTime()`).  An unparseable date gives an Invalid Date whose time is NaN,
modelled as `none`. -/
def getExpirationTimestamp (tzOffsetMs : Int) (dateString : String) :
    Option Int :=
  match parseYmd dateString with
  | some (y, m, d) => some ((daysFromCivil y m d + 1) * dayMs - tzOffsetMs)
  | none => none

/-- The `WHERE url = ? AND date = ?` predicate of `get`, `set` and `delete`. -/
def keyMatch (url date : String) (r : CacheRow) : Bool :=
  r.url == url && r.date == date

/-- The rows a key matches (`WHERE url = ? AND date = ?`). -/
def rowsFor (db : List CacheRow) (url date : String) : List CacheRow :=
  db.filter (keyMatch url date)

/-- The row the `SELECT` of `get` returns for a key. -/
def selectRow (db : List CacheRow) (url date : String) : Option CacheRow :=
  db.find? (keyMatch url date)

/-- `CacheService.delete`: `DELETE FROM menu_cache WHERE url = ? AND date = ?`. -/
def deleteRow (db : List CacheRow) (url date : String) : List CacheRow :=
  db.filter (fun r => !(keyMatch url date r))

/-- The JavaScript comparison `now >= row.expires_at`: false when the stored
expiry is NaN. -/
def expiresPassed (now : Int) (e : Option Int) : Bool :=
  match e with
  | some v => decide (v ≤ now)
  | none => false

/-- The callback body of `CacheService.get`: a read error resolves `null`;
no row resolves `null`; an expired row is deleted and resolves `null`;
otherwise the payload is `JSON.parse`d, resolving `null` if that throws.
Returns the resolved value and the table state after the read. -/
def getCallback (db : List CacheRow) (now : Int) (url date : String) :
    DbRead → Option MenuSummary × List CacheRow
  | .failure => (none, db)
  | .ok none => (none, db)
  | .ok (some row) =>
    if expiresPassed now row.expires_at then (none, deleteRow db url date)
    else (parseMenuSummaryStr row.data, db)

/-- `CacheService.get`: run the `SELECT` and its callback. -/
def get (db : List CacheRow) (now : Int) (url date : String) :
    Option MenuSummary × List CacheRow :=
  getCallback db now url date (.ok (selectRow db url date))

/-- The row `CacheService.set` writes for a key. -/
def mkRow (tzOffsetMs now : Int) (url date : String) (p : MenuSummary) :
    CacheRow :=
  ⟨url, date, stringifyMenuSummary p, now, getExpirationTimestamp tzOffsetMs date⟩

/-- `CacheService.set`: `INSERT OR REPLACE` under `UNIQUE(url, date)` ---
any existing row with the key is replaced by the new row carrying the
serialized payload and the recomputed expiry. -/
def set (tzOffsetMs : Int) (db : List CacheRow) (now : Int) (url date : String)
    (p : MenuSummary) : List CacheRow :=
  deleteRow db url date ++ [mkRow tzOffsetMs now url date p]

/-- `CacheService.cleanupExpiredEntries`:
`DELETE FROM menu_cache WHERE expires_at < ?` with `Date.now()`. -/
def cleanupExpiredEntries (db : List CacheRow) (now : Int) : List CacheRow :=
  db.filter (fun r =>
    match r.expires_at with
    | some v => decide (now ≤ v)
    | none => true)

end CacheService

/-! ## MenuService (src/services/menuService.ts) -/

/-- Errors `summarizeMenu` can reject with. -/
inductive SvcError
  | fetchFailed (e : FetchError)
  | emptyContent
  | llmFailed (msg : String)
deriving DecidableEq, Repr

/-- The collaborators of `MenuService`: the scraper's environment, the LLM
extraction capability (`extractMenu(pageContent, url, targetDate, dayOfWeek,
images?)`, keyed by its inputs), the current instant, and the process's
local-time offset. -/
structure MenuEnv where
  scrape : ScrapeEnv
  llm : String → String → String → String → Option (List String) →
    Except String MenuSummary
  nowMs : Int
  tzOffsetMs : Int

namespace MenuService

/-- `MenuService.summarizeMenu`: default the date, check the cache with the
key `(url, targetDate)` (the URL exactly as passed), on a hit return the
cached value; on a miss scrape (`scrapeMenuPageWithImages`), reject on empty
extracted text, call the LLM (passing the image list only when nonempty),
store the result under the same key and return it.  Returns the outcome, the
cache state afterwards, and the event trace. -/
def summarizeMenu (env : MenuEnv) (db : List CacheRow) (url : String)
    (date : Option String) :
    Except SvcError MenuSummary × List CacheRow × List Event :=
  let targetDate := date.getD (getCurrentDate env.nowMs)
  let dayOfWeek := getDayOfWeek targetDate
  let gr := CacheService.get db env.nowMs url targetDate
  match gr.1 with
  | some m => (.ok m, gr.2, [Event.cacheRead url targetDate])
  | none =>
    let sr := scrapeMenuPageWithImages env.scrape url
    match sr.1 with
    | .error e =>
      (.error (.fetchFailed e), gr.2, Event.cacheRead url targetDate :: sr.2)
    | .ok (text, images) =>
      if trimIsEmpty text then
        (.error .emptyContent, gr.2, Event.cacheRead url targetDate :: sr.2)
      else
        match env.llm text url targetDate dayOfWeek
            (if images.length > 0 then some images else none) with
        | .error msg =>
          (.error (.llmFailed msg), gr.2,
           Event.cacheRead url targetDate :: sr.2 ++ [Event.llmCall targetDate])
        | .ok m =>
          (.ok m,
           CacheService.set env.tzOffsetMs gr.2 env.nowMs url targetDate m,
           Event.cacheRead url targetDate :: sr.2 ++
             [Event.llmCall targetDate, Event.cacheWrite url targetDate])

end MenuService

/-! ## Supporting lemmas about the cache -/

namespace CacheService

theorem keyMatch_mkRow (tz now : Int) (url date : String) (p : MenuSummary) :
    keyMatch url date (mkRow tz now url date p) = true := by
  simp [keyMatch, mkRow]

theorem find?_deleteRow (db : List CacheRow) (url date : String) :
    (deleteRow db url date).find? (keyMatch url date) = none := by
  rw [List.find?_eq_none]
  intro r hr
  rw [deleteRow, List.mem_filter] at hr
  simp only [Bool.not_eq_true'] at hr
  simp [hr.2]

theorem find?_append_none {p : CacheRow → Bool} (l1 l2 : List CacheRow)
    (h : l1.find? p = none) : (l1 ++ l2).find? p = l2.find? p := by
  induction l1 with
  | nil => rfl
  | cons a l ih =>
    rw [List.find?_eq_none] at h
    have ha : p a = false := by
      have := h a (by simp)
      simp at this
      simp [this]
    simp only [List.cons_append, List.find?_cons, ha]
    exact ih (by rw [List.find?_eq_none]; intro x hx; exact h x (by simp [hx]))

theorem selectRow_set (tz : Int) (db : List CacheRow) (t : Int)
    (url date : String) (p : MenuSummary) :
    selectRow (set tz db t url date p) url date = some (mkRow tz t url date p) := by
  rw [set, selectRow, find?_append_none _ _ (find?_deleteRow db url date)]
  simp [List.find?_cons, keyMatch_mkRow]

theorem rowsFor_deleteRow (db : List CacheRow) (url date : String) :
    rowsFor (deleteRow db url date) url date = [] := by
  rw [rowsFor, deleteRow, List.filter_filter, List.filter_eq_nil_iff]
  intro r hr
  simp only [Bool.and_eq_true, Bool.not_eq_true']
  intro hcon
  simp [hcon.1] at hcon

theorem rowsFor_set_self (tz : Int) (db : List CacheRow) (t : Int)
    (url date : String) (p : MenuSummary) :
    rowsFor (set tz db t url date p) url date = [mkRow tz t url date p] := by
  rw [set, rowsFor, List.filter_append]
  have h1 : (deleteRow db url date).filter (keyMatch url date) = [] :=
    rowsFor_deleteRow db url date
  rw [h1]
  simp [List.filter_cons, keyMatch_mkRow]

theorem keyMatch_other (u' d' u d : String) (r : CacheRow)
    (hne : ¬(u' = u ∧ d' = d)) (hr : keyMatch u' d' r = true) :
    keyMatch u d r = false := by
  simp only [keyMatch, Bool.and_eq_true, beq_iff_eq] at hr
  simp only [keyMatch, Bool.and_eq_false_iff, beq_eq_false_iff_ne, ne_eq]
  by_cases hu : u' = u
  · right
    intro hcon
    exact hne ⟨hu, by rw [← hr.2, hcon]⟩
  · left
    intro hcon
    exact hu (by rw [← hr.1, hcon])

theorem rowsFor_set_other (tz : Int) (db : List CacheRow) (t : Int)
    (url date u' d' : String) (p : MenuSummary) (hne : ¬(u' = url ∧ d' = date)) :
    rowsFor (set tz db t url date p) u' d' = rowsFor db u' d' := by
  rw [set, rowsFor, List.filter_append]
  have hrow : keyMatch u' d' (mkRow tz t url date p) = false := by
    by_cases h : keyMatch u' d' (mkRow tz t url date p) = true
    · have := keyMatch_other u' d' url date _ hne h
      rw [keyMatch_mkRow] at this
      cases this
    · simpa using h
  rw [List.filter_cons]
  simp only [hrow, Bool.false_eq_true, if_false, List.filter_nil,
    List.append_nil]
  rw [rowsFor, deleteRow, List.filter_filter]
  apply List.filter_congr
  intro r hr
  by_cases h : keyMatch u' d' r = true
  · have := keyMatch_other u' d' url date r hne h
    simp [h, this]
  · simp only [Bool.not_eq_true] at h
    simp [h]

theorem get_set_fresh (tz : Int) (db : List CacheRow) (t now : Int)
    (url date : String) (p : MenuSummary) (e : Int)
    (hexp : getExpirationTimestamp tz date = some e) (hnow : now < e) :
    get (set tz db t url date p) now url date =
      (some p, set tz db t url date p) := by
  rw [get, selectRow_set]
  simp only [getCallback, mkRow, hexp, expiresPassed]
  rw [if_neg (by simp; omega)]
  rw [parse_stringify]

end CacheService

/-- A concrete `MenuSummary` used to instantiate witnesses. -/
def sampleSummary : MenuSummary :=
  { restaurant_name := "Test Restaurant"
    date := "2025-10-22"
    day_of_week := "středa"
    menu_items := [{ category := "polévka", name := "Hovězí vývar", price := 45,
                     allergens := some ["1", "3"] }]
    daily_menu := true
    source_url := "https://example.com/menu" }

/-- A second concrete `MenuSummary`, distinct from `sampleSummary`. -/
def sampleSummary2 : MenuSummary :=
  { restaurant_name := "Restaurant 2"
    date := "2025-10-22"
    day_of_week := "středa"
    menu_items := []
    daily_menu := false
    source_url := "https://example.com/menu" }

/-! ## The claims -/

/-- C5: a cache row with key (url, date) whose `expires_at` --- the local
midnight (`tzOffsetMs` east of UTC) immediately following that date --- has
passed at lookup time is not returned by `get`: the lookup resolves `null`
and deletes the row as part of the read, with no sweep ever invoked. -/
theorem C5_get_expired_row_deleted
    (db : List CacheRow) (url date : String) (y m d : Int) (p : MenuSummary)
    (tz t0 now : Int)
    (hdate : parseYmd date = some (y, m, d))
    (hnow : (daysFromCivil y m d + 1) * dayMs - tz ≤ now) :
    (CacheService.get (CacheService.set tz db t0 url date p) now url date).1 =
      none ∧
    CacheService.rowsFor
      (CacheService.get (CacheService.set tz db t0 url date p) now url date).2
      url date = [] := by
  have hexp : CacheService.getExpirationTimestamp tz date =
      some ((daysFromCivil y m d + 1) * dayMs - tz) := by
    simp [CacheService.getExpirationTimestamp, hdate]
  rw [CacheService.get, CacheService.selectRow_set]
  simp only [CacheService.getCallback, CacheService.mkRow, hexp,
    CacheService.expiresPassed]
  rw [if_pos (by simp; omega)]
  exact ⟨rfl, CacheService.rowsFor_deleteRow _ _ _⟩

/-- Witness for C5 at a concrete key: a row stored for 2025-10-22 (UTC zone)
is absent and deleted when read at the following midnight. -/
theorem C5_get_expired_row_deleted_witness :
    (CacheService.get
        (CacheService.set 0 [] 0 "https://example.com/menu" "2025-10-22"
          sampleSummary)
        1761177600000 "https://example.com/menu" "2025-10-22").1 = none ∧
    CacheService.rowsFor
      (CacheService.get
        (CacheService.set 0 [] 0 "https://example.com/menu" "2025-10-22"
          sampleSummary)
        1761177600000 "https://example.com/menu" "2025-10-22").2
      "https://example.com/menu" "2025-10-22" = [] :=
  C5_get_expired_row_deleted [] "https://example.com/menu" "2025-10-22"
    2025 10 22 sampleSummary 0 0 1761177600000 (by decide) (by decide)

/-- C6: `set` is an upsert keyed by (url, date): the empty table has no row
for a key, a `set` leaves exactly the one just-written row for its key (so a
second `set` with the same key replaces the first, the second payload
winning), and a `set` never touches the rows of any other key. -/
theorem C6_set_upsert_per_key
    (tz : Int) (db : List CacheRow) (t : Int) (u d u' d' : String)
    (p : MenuSummary) (hne : ¬(u' = u ∧ d' = d)) :
    CacheService.rowsFor ([] : List CacheRow) u d = [] ∧
    CacheService.rowsFor (CacheService.set tz db t u d p) u d =
      [CacheService.mkRow tz t u d p] ∧
    CacheService.rowsFor (CacheService.set tz db t u d p) u' d' =
      CacheService.rowsFor db u' d' := by
  refine ⟨rfl, CacheService.rowsFor_set_self tz db t u d p, ?_⟩
  exact CacheService.rowsFor_set_other tz db t u d u' d' p hne

/-- Witness for C6 at concrete keys: writing twice to one key leaves that
single row, and a distinct key's rows are untouched. -/
theorem C6_set_upsert_per_key_witness :
    CacheService.rowsFor ([] : List CacheRow) "https://example.com/menu"
      "2025-10-22" = [] ∧
    CacheService.rowsFor
      (CacheService.set 0
        (CacheService.set 0 [] 0 "https://example.com/menu" "2025-10-22"
          sampleSummary)
        1 "https://example.com/menu" "2025-10-22" sampleSummary2)
      "https://example.com/menu" "2025-10-22" =
      [CacheService.mkRow 0 1 "https://example.com/menu" "2025-10-22"
        sampleSummary2] ∧
    CacheService.rowsFor
      (CacheService.set 0
        (CacheService.set 0 [] 0 "https://example.com/menu" "2025-10-22"
          sampleSummary)
        1 "https://example.com/menu" "2025-10-22" sampleSummary2)
      "https://example.com/menu" "2025-10-23" =
      CacheService.rowsFor
        (CacheService.set 0 [] 0 "https://example.com/menu" "2025-10-22"
          sampleSummary)
        "https://example.com/menu" "2025-10-23" :=
  C6_set_upsert_per_key 0
    (CacheService.set 0 [] 0 "https://example.com/menu" "2025-10-22"
      sampleSummary)
    1 "https://example.com/menu" "2025-10-22" "https://example.com/menu"
    "2025-10-23" sampleSummary2 (by decide)

/-- C7: `set` followed by `get` with the same key, looked up before the
key's expiry instant, returns exactly the payload written --- the JSON
serialization round-trips without loss. -/
theorem C7_set_get_roundtrip
    (db : List CacheRow) (url date : String) (p : MenuSummary)
    (tz t0 now e : Int)
    (hexp : CacheService.getExpirationTimestamp tz date = some e)
    (hnow : now < e) :
    (CacheService.get (CacheService.set tz db t0 url date p) now url date).1 =
      some p := by
  rw [CacheService.get_set_fresh tz db t0 now url date p e hexp hnow]

/-- Witness for C7: the sample summary written at a concrete key is read
back exactly, before expiry. -/
theorem C7_set_get_roundtrip_witness :
    (CacheService.get
        (CacheService.set 0 [] 0 "https://example.com/menu" "2025-10-22"
          sampleSummary)
        0 "https://example.com/menu" "2025-10-22").1 = some sampleSummary :=
  C7_set_get_roundtrip [] "https://example.com/menu" "2025-10-22"
    sampleSummary 0 0 0 1761177600000 (by decide) (by decide)

/-- C10: `get` resolves `null` rather than raising, both when the underlying
database read reports an error and when the stored payload string is not
parseable JSON (for a row that is found). -/
theorem C10_get_error_paths
    (db : List CacheRow) (now : Int) (url date : String) (row : CacheRow)
    (hsel : CacheService.selectRow db url date = some row)
    (hparse : parseMenuSummaryStr row.data = none) :
    CacheService.getCallback db now url date .failure = (none, db) ∧
    (CacheService.get db now url date).1 = none := by
  refine ⟨rfl, ?_⟩
  rw [CacheService.get, hsel]
  by_cases hex : CacheService.expiresPassed now row.expires_at
  · simp [CacheService.getCallback, hex]
  · simp only [Bool.not_eq_true] at hex
    simp [CacheService.getCallback, hex, hparse]

/-- Witness for C10: a table holding one unexpirable row whose payload is
the string `not json` yields a `null` lookup, and a failed read yields
`null`. -/
theorem C10_get_error_paths_witness :
    CacheService.getCallback
      [⟨"https://example.com/menu", "2025-10-22", "not json", 0, none⟩]
      0 "https://example.com/menu" "2025-10-22" .failure =
      (none,
       [⟨"https://example.com/menu", "2025-10-22", "not json", 0, none⟩]) ∧
    (CacheService.get
      [⟨"https://example.com/menu", "2025-10-22", "not json", 0, none⟩]
      0 "https://example.com/menu" "2025-10-22").1 = none :=
  C10_get_error_paths
    [⟨"https://example.com/menu", "2025-10-22", "not json", 0, none⟩]
    0 "https://example.com/menu" "2025-10-22"
    ⟨"https://example.com/menu", "2025-10-22", "not json", 0, none⟩
    (by decide) (by decide)

/-- A scraper environment whose static fetch finds menu-like content
(a Czech soup keyword and a price) and whose rendered fetches would fail. -/
def envMenuLike : ScrapeEnv :=
  { extractTextContent := fun s => s
    findMenuImages := fun _ _ => []
    staticResp := fun _ => .ok "Polévka dne 45 Kč"
    rendered1 := fun _ => .error .timeout
    rendered2 := fun _ => .error .timeout }

/-- A scraper environment whose static fetch succeeds with text carrying no
menu markers and no images, and whose rendered fetches both fail. -/
def envNoMenu : ScrapeEnv :=
  { extractTextContent := fun s => s
    findMenuImages := fun _ _ => []
    staticResp := fun _ => .ok "hello world"
    rendered1 := fun _ => .error .timeout
    rendered2 := fun _ => .error .networkError }

/-- A scraper environment whose static fetch succeeds without menu markers
and whose first rendered fetch succeeds. -/
def envRenderedOk : ScrapeEnv :=
  { extractTextContent := fun s => s
    findMenuImages := fun _ _ => []
    staticResp := fun _ => .ok "hello world"
    rendered1 := fun _ => .ok "Polévka dne 45 Kč"
    rendered2 := fun _ => .error .timeout }

/-- A scraper environment whose static fetch fails and whose first rendered
fetch succeeds. -/
def envStaticFail : ScrapeEnv :=
  { extractTextContent := fun s => s
    findMenuImages := fun _ _ => []
    staticResp := fun _ => .error .timeout
    rendered1 := fun _ => .ok "Polévka dne 45 Kč"
    rendered2 := fun _ => .error .timeout }

/-- C3: when the static fetch succeeds and its extraction satisfies the
menu-content classifier, the rendered fetcher is never invoked and the
static extraction is returned. -/
theorem C3_menu_like_static_accepted
    (env : ScrapeEnv) (url html : String)
    (hstat : env.staticResp (removeHashFromUrl url) = .ok html)
    (hclass : hasMenuContent (env.extractTextContent html)
      (env.findMenuImages html url) = true) :
    (scrapeMenuPageWithImages env url).1 =
      .ok (env.extractTextContent html, env.findMenuImages html url) ∧
    renderedTargets (scrapeMenuPageWithImages env url).2 = [] := by
  simp [scrapeMenuPageWithImages, hstat, hclass, renderedTargets]

/-- Witness for C3 at a concrete page: menu-like static content is returned
with no rendered fetch. -/
theorem C3_menu_like_static_accepted_witness :
    (scrapeMenuPageWithImages envMenuLike "https://example.com/menu").1 =
      .ok (envMenuLike.extractTextContent "Polévka dne 45 Kč",
           envMenuLike.findMenuImages "Polévka dne 45 Kč"
             "https://example.com/menu") ∧
    renderedTargets
      (scrapeMenuPageWithImages envMenuLike "https://example.com/menu").2 =
      [] :=
  C3_menu_like_static_accepted envMenuLike "https://example.com/menu"
    "Polévka dne 45 Kč" rfl (by decide)

/-- C4: when the static fetch raises a fatal fetch error, the pipeline
escalates to exactly one rendered attempt: a successful rendered fetch
yields its extraction, and only a failing rendered fetch makes the call
fail (with the original static error). -/
theorem C4_static_failure_escalates
    (env : ScrapeEnv) (url : String) (e : FetchError)
    (hstat : env.staticResp (removeHashFromUrl url) = .error e) :
    renderedTargets (scrapeMenuPageWithImages env url).2 = [url] ∧
    (∀ h, env.rendered1 url = .ok h →
      (scrapeMenuPageWithImages env url).1 =
        .ok (env.extractTextContent h, env.findMenuImages h url)) ∧
    (∀ e1, env.rendered1 url = .error e1 →
      (scrapeMenuPageWithImages env url).1 = .error e) := by
  cases hr : env.rendered1 url with
  | ok h =>
    refine ⟨?_, ?_, ?_⟩
    · simp [scrapeMenuPageWithImages, hstat, hr, renderedTargets]
    · intro h' hh'
      simp only [Except.ok.injEq] at hh'
      subst hh'
      simp [scrapeMenuPageWithImages, hstat, hr]
    · intro e1 he1
      simp at he1
  | error e1 =>
    refine ⟨?_, ?_, ?_⟩
    · simp [scrapeMenuPageWithImages, hstat, hr, renderedTargets]
    · intro h' hh'
      simp at hh'
    · intro e1' he1'
      simp [scrapeMenuPageWithImages, hstat, hr]

/-- Witness for C4: a timed-out static fetch at a concrete URL is followed
by one successful rendered fetch whose extraction is returned. -/
theorem C4_static_failure_escalates_witness :
    renderedTargets
      (scrapeMenuPageWithImages envStaticFail "https://example.com/menu").2 =
      ["https://example.com/menu"] ∧
    (∀ h, envStaticFail.rendered1 "https://example.com/menu" = .ok h →
      (scrapeMenuPageWithImages envStaticFail "https://example.com/menu").1 =
        .ok (envStaticFail.extractTextContent h,
             envStaticFail.findMenuImages h "https://example.com/menu")) ∧
    (∀ e1, envStaticFail.rendered1 "https://example.com/menu" = .error e1 →
      (scrapeMenuPageWithImages envStaticFail "https://example.com/menu").1 =
        .error .timeout) :=
  C4_static_failure_escalates envStaticFail "https://example.com/menu"
    .timeout rfl

/-- Counterexample to C2 as stated: with a static result classified not
menu-like and a rendered fetch that raises, the rendered fetcher is invoked
twice (the catch block retries it), not exactly once, and no rendered
extraction is returned. -/
theorem C2_counterexample :
    hasMenuContent (envNoMenu.extractTextContent "hello world")
      (envNoMenu.findMenuImages "hello world" "https://example.com/menu") =
      false ∧
    renderedTargets
      (scrapeMenuPageWithImages envNoMenu "https://example.com/menu").2 =
      ["https://example.com/menu", "https://example.com/menu"] ∧
    (scrapeMenuPageWithImages envNoMenu "https://example.com/menu").1 =
      .error .timeout := by
  decide

/-- C2 amended: given a static result classified not menu-like, the rendered
fetcher is invoked; if that first rendered fetch succeeds it is invoked
exactly once and its extraction is returned unconditionally (no classifier
re-applied); if it raises, the error handler invokes the rendered fetcher a
second time, returning that extraction on success and failing with the
first rendered error otherwise. -/
theorem C2_not_menu_like_escalates
    (env : ScrapeEnv) (url html : String)
    (hstat : env.staticResp (removeHashFromUrl url) = .ok html)
    (hclass : hasMenuContent (env.extractTextContent html)
      (env.findMenuImages html url) = false) :
    (∀ h2, env.rendered1 url = .ok h2 →
      (scrapeMenuPageWithImages env url).1 =
        .ok (env.extractTextContent h2, env.findMenuImages h2 url) ∧
      renderedTargets (scrapeMenuPageWithImages env url).2 = [url]) ∧
    (∀ e1, env.rendered1 url = .error e1 →
      renderedTargets (scrapeMenuPageWithImages env url).2 = [url, url] ∧
      (∀ h3, env.rendered2 url = .ok h3 →
        (scrapeMenuPageWithImages env url).1 =
          .ok (env.extractTextContent h3, env.findMenuImages h3 url)) ∧
      (∀ e2, env.rendered2 url = .error e2 →
        (scrapeMenuPageWithImages env url).1 = .error e1)) := by
  constructor
  · intro h2 hr
    constructor
    · simp [scrapeMenuPageWithImages, hstat, hclass, hr]
    · simp [scrapeMenuPageWithImages, hstat, hclass, hr, renderedTargets]
  · intro e1 hr
    refine ⟨?_, ?_, ?_⟩
    · cases hr2 : env.rendered2 url with
      | ok h3 =>
        simp [scrapeMenuPageWithImages, hstat, hclass, hr, hr2,
          renderedTargets]
      | error e2 =>
        simp [scrapeMenuPageWithImages, hstat, hclass, hr, hr2,
          renderedTargets]
    · intro h3 hr2
      simp [scrapeMenuPageWithImages, hstat, hclass, hr, hr2]
    · intro e2 hr2
      simp [scrapeMenuPageWithImages, hstat, hclass, hr, hr2]

/-- Witness for the amended C2: not-menu-like static content at a concrete
URL, one successful rendered fetch, extraction returned. -/
theorem C2_not_menu_like_escalates_witness :
    (scrapeMenuPageWithImages envRenderedOk "https://example.com/menu").1 =
      .ok (envRenderedOk.extractTextContent "Polévka dne 45 Kč",
           envRenderedOk.findMenuImages "Polévka dne 45 Kč"
             "https://example.com/menu") ∧
    renderedTargets
      (scrapeMenuPageWithImages envRenderedOk "https://example.com/menu").2 =
      ["https://example.com/menu"] :=
  (C2_not_menu_like_escalates envRenderedOk "https://example.com/menu"
    "hello world" rfl (by decide)).1 "Polévka dne 45 Kč" rfl

/-- C9: the `mentionsMenuButNoItems` value never changes behaviour ---
`scrapeMenuPageWithImages` is extensionally equal to the simplified function
that escalates on the negation of `hasMenuContent` alone, and the trailing
"content but not menu" return branch is unreachable. -/
theorem scrape_events_mem (env : ScrapeEnv) (url : String) (ev : Event)
    (h : ev ∈ (scrapeMenuPageWithImages env url).2) :
    ev = .fetchStatic (removeHashFromUrl url) ∨ ev = .fetchRendered url := by
  unfold scrapeMenuPageWithImages at h
  simp only [] at h
  split at h
  · split at h <;> simp at h <;> tauto
  · split at h
    · simp at h
      tauto
    · split at h
      · split at h
        · simp at h
          tauto
        · split at h <;> simp at h <;> tauto
      · simp at h
        tauto

theorem summarize_events_mem (env : MenuEnv) (db : List CacheRow)
    (url : String) (dateArg : Option String) (ev : Event)
    (h : ev ∈ (MenuService.summarizeMenu env db url dateArg).2.2) :
    ev = .cacheRead url (dateArg.getD (MenuService.getCurrentDate env.nowMs)) ∨
    ev = .cacheWrite url (dateArg.getD (MenuService.getCurrentDate env.nowMs)) ∨
    ev = .llmCall (dateArg.getD (MenuService.getCurrentDate env.nowMs)) ∨
    ev = .fetchStatic (removeHashFromUrl url) ∨
    ev = .fetchRendered url := by
  have hsc := scrape_events_mem env.scrape url ev
  unfold MenuService.summarizeMenu at h
  simp only [] at h
  split at h
  · simp at h
    tauto
  · split at h
    · simp at h
      tauto
    · split at h
      · simp at h
        tauto
      · split at h <;> simp at h <;> tauto

theorem mem_staticTargets (evs : List Event) (t : String) :
    t ∈ staticTargets evs ↔ Event.fetchStatic t ∈ evs := by
  induction evs with
  | nil => simp [staticTargets]
  | cons e l ih =>
    cases e <;> simp [staticTargets, List.filterMap_cons] at ih ⊢ <;> simp [ih]

theorem mem_renderedTargets (evs : List Event) (t : String) :
    t ∈ renderedTargets evs ↔ Event.fetchRendered t ∈ evs := by
  induction evs with
  | nil => simp [renderedTargets]
  | cons e l ih =>
    cases e <;> simp [renderedTargets, List.filterMap_cons] at ih ⊢ <;>
      simp [ih]

theorem mem_cacheReadKeys (evs : List Event) (k : String × String) :
    k ∈ cacheReadKeys evs ↔ Event.cacheRead k.1 k.2 ∈ evs := by
  induction evs with
  | nil => simp [cacheReadKeys]
  | cons e l ih =>
    cases e <;> simp [cacheReadKeys, List.filterMap_cons] at ih ⊢ <;>
      simp [ih, Prod.ext_iff]

theorem mem_cacheWriteKeys (evs : List Event) (k : String × String) :
    k ∈ cacheWriteKeys evs ↔ Event.cacheWrite k.1 k.2 ∈ evs := by
  induction evs with
  | nil => simp [cacheWriteKeys]
  | cons e l ih =>
    cases e <;> simp [cacheWriteKeys, List.filterMap_cons] at ih ⊢ <;>
      simp [ih, Prod.ext_iff]

theorem mem_llmCallDates (evs : List Event) (d : String) :
    d ∈ llmCallDates evs ↔ Event.llmCall d ∈ evs := by
  induction evs with
  | nil => simp [llmCallDates]
  | cons e l ih =>
    cases e <;> simp [llmCallDates, List.filterMap_cons] at ih ⊢ <;> simp [ih]

theorem removeHash_of_no_hash (url : String) (h : '#' ∉ url.data) :
    removeHashFromUrl url = url := by
  unfold removeHashFromUrl
  have hl : ∀ c ∈ url.data, (decide (c ≠ '#')) = true := by
    intro c hc
    simp only [decide_eq_true_eq, ne_eq]
    intro heq
    subst heq
    exact h hc
  have hr : ∀ c : Char, ([] : List Char).head? = some c →
      (decide (c ≠ '#')) = false := by
    intro c hc
    cases hc
  have := takeWhile_append_all (fun c => decide (c ≠ '#')) url.data [] hl hr
  rw [List.append_nil] at this
  rw [this, strMk_data]

theorem removeHash_strips_fragment (url frag : String) (h : '#' ∉ url.data) :
    removeHashFromUrl (url ++ "#" ++ frag) = url := by
  unfold removeHashFromUrl
  have hdata : (url ++ "#" ++ frag).data = url.data ++ ('#' :: frag.data) := by
    rw [String.data_append, String.data_append]
    simp [List.append_assoc]
  rw [hdata]
  have hl : ∀ c ∈ url.data, (decide (c ≠ '#')) = true := by
    intro c hc
    simp only [decide_eq_true_eq, ne_eq]
    intro heq
    subst heq
    exact h hc
  have hr : ∀ c : Char, (('#' :: frag.data) : List Char).head? = some c →
      (decide (c ≠ '#')) = false := by
    intro c hc
    simp only [List.head?_cons, Option.some.injEq] at hc
    subst hc
    simp
  rw [takeWhile_append_all (fun c => decide (c ≠ '#')) url.data
    ('#' :: frag.data) hl hr, strMk_data]

theorem append_fragment_ne (url frag : String) :
    url ++ "#" ++ frag ≠ url := by
  intro heq
  have hd := congrArg String.data heq
  rw [String.data_append, String.data_append] at hd
  have h1 : ("#" : String).data = ['#'] := rfl
  rw [h1] at hd
  have hlen := congrArg List.length hd
  simp only [List.length_append, List.length_cons] at hlen
  omega

/-- The menu-service environment used for the concrete resolution runs. -/
def envC1 : MenuEnv :=
  { scrape := envMenuLike
    llm := fun _ _ _ _ _ => .ok sampleSummary
    nowMs := 0
    tzOffsetMs := 0 }

/-- A menu-service environment whose clock reads 2025-10-21T22:30Z in a
UTC+2 zone (where the local calendar date is already 2025-10-22). -/
def envC8 : MenuEnv :=
  { scrape := envMenuLike
    llm := fun _ _ _ _ _ => .ok sampleSummary
    nowMs := 20382 * 86400000 + 81000000
    tzOffsetMs := 7200000 }

/-- Counterexample to C1 as stated: resolving the same page with and without
a fragment consults different cache keys (summarizeMenu keys the cache by
the URL exactly as passed, before any hash stripping). -/
theorem C1_counterexample :
    ¬(cacheReadKeys (MenuService.summarizeMenu envC1 []
        ("https://example.com/menu" ++ "#" ++ "denni-menu")
        (some "2025-10-22")).2.2 =
      cacheReadKeys (MenuService.summarizeMenu envC1 []
        "https://example.com/menu" (some "2025-10-22")).2.2) := by
  decide

/-- C1 amended: for a URL without a fragment and its fragment variant, the
static fetch target is the hash-stripped URL --- identical for both --- but
the cache keys and the rendered fetch targets use the URL exactly as passed,
so the two resolutions use different cache keys (and different rendered
targets) while sharing the static fetch target. -/
theorem C1_fragment_handling (env : MenuEnv) (db : List CacheRow)
    (url dt frag : String) (hnh : '#' ∉ url.data) :
    (∀ t ∈ staticTargets
        (MenuService.summarizeMenu env db url (some dt)).2.2, t = url) ∧
    (∀ t ∈ staticTargets
        (MenuService.summarizeMenu env db (url ++ "#" ++ frag)
          (some dt)).2.2, t = url) ∧
    (∀ t ∈ renderedTargets
        (MenuService.summarizeMenu env db url (some dt)).2.2, t = url) ∧
    (∀ t ∈ renderedTargets
        (MenuService.summarizeMenu env db (url ++ "#" ++ frag)
          (some dt)).2.2, t = url ++ "#" ++ frag) ∧
    (∀ k ∈ cacheReadKeys
        (MenuService.summarizeMenu env db url (some dt)).2.2,
      k = (url, dt)) ∧
    (∀ k ∈ cacheReadKeys
        (MenuService.summarizeMenu env db (url ++ "#" ++ frag)
          (some dt)).2.2, k = (url ++ "#" ++ frag, dt)) ∧
    url ++ "#" ++ frag ≠ url := by
  refine ⟨?_, ?_, ?_, ?_, ?_, ?_, append_fragment_ne url frag⟩
  · intro t ht
    rw [mem_staticTargets] at ht
    have hm := summarize_events_mem env db url (some dt) _ ht
    rcases hm with hm | hm | hm | hm | hm <;>
      simp_all [removeHash_of_no_hash url hnh]
  · intro t ht
    rw [mem_staticTargets] at ht
    have hm := summarize_events_mem env db (url ++ "#" ++ frag) (some dt) _ ht
    rcases hm with hm | hm | hm | hm | hm <;>
      simp_all [removeHash_strips_fragment url frag hnh]
  · intro t ht
    rw [mem_renderedTargets] at ht
    have hm := summarize_events_mem env db url (some dt) _ ht
    rcases hm with hm | hm | hm | hm | hm <;> simp_all
  · intro t ht
    rw [mem_renderedTargets] at ht
    have hm := summarize_events_mem env db (url ++ "#" ++ frag) (some dt) _ ht
    rcases hm with hm | hm | hm | hm | hm <;> simp_all
  · intro k hk
    rw [mem_cacheReadKeys] at hk
    have hm := summarize_events_mem env db url (some dt) _ hk
    rcases hm with hm | hm | hm | hm | hm <;> simp_all [Prod.ext_iff]
  · intro k hk
    rw [mem_cacheReadKeys] at hk
    have hm := summarize_events_mem env db (url ++ "#" ++ frag) (some dt) _ hk
    rcases hm with hm | hm | hm | hm | hm <;> simp_all [Prod.ext_iff]

/-- Witness for the amended C1: at the concrete menu URL and its
`#denni-menu` variant, the fragment URL differs from the plain one, and the
static target recorded when resolving the fragment URL is the stripped
URL. -/
theorem C1_fragment_handling_witness :
    ("https://example.com/menu" ++ "#" ++ "denni-menu" ≠
      "https://example.com/menu") ∧
    "https://example.com/menu" = "https://example.com/menu" :=
  ⟨(C1_fragment_handling envC1 [] "https://example.com/menu" "2025-10-22"
      "denni-menu" (by decide)).2.2.2.2.2.2,
   (C1_fragment_handling envC1 [] "https://example.com/menu" "2025-10-22"
      "denni-menu" (by decide)).2.1 "https://example.com/menu" (by decide)⟩

/-- Counterexample to C8 as stated: with the clock at 2025-10-21T22:30Z in a
UTC+2 zone, the defaulted date used for the cache key is the UTC date
2025-10-21 (`toISOString` formats in UTC), while the current local calendar
date is 2025-10-22. -/
theorem C8_counterexample :
    cacheReadKeys (MenuService.summarizeMenu envC8 []
        "https://example.com/menu" none).2.2 =
      [("https://example.com/menu", "2025-10-21")] ∧
    MenuService.currentLocalDate envC8.nowMs envC8.tzOffsetMs =
      "2025-10-22" ∧
    ("2025-10-21" : String) ≠ "2025-10-22" := by
  decide

/-- C8 amended: when the date argument is absent, the date used for the
cache key, the cache write and the LLM extraction call is the current UTC
calendar date (`new Date().toISOString().split('T')[0]`), not the local
one. -/
theorem C8_default_date_is_utc (env : MenuEnv) (db : List CacheRow)
    (url : String) :
    (∀ k ∈ cacheReadKeys
        (MenuService.summarizeMenu env db url none).2.2,
      k = (url, MenuService.getCurrentDate env.nowMs)) ∧
    (∀ k ∈ cacheWriteKeys
        (MenuService.summarizeMenu env db url none).2.2,
      k = (url, MenuService.getCurrentDate env.nowMs)) ∧
    (∀ d ∈ llmCallDates
        (MenuService.summarizeMenu env db url none).2.2,
      d = MenuService.getCurrentDate env.nowMs) := by
  refine ⟨?_, ?_, ?_⟩
  · intro k hk
    rw [mem_cacheReadKeys] at hk
    have hm := summarize_events_mem env db url none _ hk
    rcases hm with hm | hm | hm | hm | hm <;> simp_all [Prod.ext_iff]
  · intro k hk
    rw [mem_cacheWriteKeys] at hk
    have hm := summarize_events_mem env db url none _ hk
    rcases hm with hm | hm | hm | hm | hm <;> simp_all [Prod.ext_iff]
  · intro d hd
    rw [mem_llmCallDates] at hd
    have hm := summarize_events_mem env db url none _ hd
    rcases hm with hm | hm | hm | hm | hm <;> simp_all

/-- Witness for the amended C8: in the UTC+2 environment the defaulted cache
key's date is the UTC date 2025-10-21. -/
theorem C8_default_date_is_utc_witness :
    (("https://example.com/menu", "2025-10-21") : String × String) =
      ("https://example.com/menu", MenuService.getCurrentDate envC8.nowMs) :=
  (C8_default_date_is_utc envC8 [] "https://example.com/menu").1
    ("https://example.com/menu", "2025-10-21") (by decide)

theorem C9_mentionsMenu_dead_logic (env : ScrapeEnv) (url : String) :
    scrapeMenuPageWithImages env url = scrapeSimplified env url := by
  unfold scrapeMenuPageWithImages scrapeSimplified
  simp only []
  cases hs : env.staticResp (removeHashFromUrl url) with
  | error e => rfl
  | ok html =>
    by_cases hc : hasMenuContent (env.extractTextContent html)
        (env.findMenuImages html url) = true
    · simp [hc]
    · simp only [Bool.not_eq_true] at hc
      simp [hc]

end Menu
